import Mathlib

/-!
Verification of the costing engine of the `calculadora-keto` application.

The TypeScript source is shallowly embedded: JavaScript numbers are
modelled as exact rationals (every computation the claims mention is
exact in IEEE doubles for the values involved), and a value that may be
NaN is modelled as `Option ℚ` with `none` standing for NaN.  Built-in
JavaScript string operations (`parseFloat`, `trim`, `toLowerCase`) are
modelled explicitly on the decimal grammar the number inputs produce;
overflow to Infinity is not modelled.
-/

namespace Keto

set_option maxRecDepth 8000

/-- Numeric value of a run of decimal digit characters. -/
def digitsVal (cs : List Char) : ℕ :=
  cs.foldl (fun a c => 10 * a + (c.toNat - 48)) 0

/-- Models the decimal grammar of JS `parseFloat`: optional leading
whitespace, optional sign, digits with an optional fractional part and
an optional exponent part; trailing garbage is ignored, and a string
with no leading digits parses to NaN (`none`).  The result is the exact
parsed rational; the 64-bit float range is NOT modelled here, so a
value that would overflow to Infinity in JS is returned as a (huge)
finite rational, and the `Infinity` literal is `none`.  `parseFloatJS`
below layers the float-range semantics (NaN / ±Infinity / finite) on
top of this grammar and is used where the distinction matters — the
recipe-save yield validation, whose behaviour at an infinite yield the
claims talk about.  The quantity and price fields keep this finite
abstraction: every claim about them is either conditional on a
successful parse or evaluated at small exact values. -/
def parseFloat (s : String) : Option ℚ :=
  let cs := s.data.dropWhile Char.isWhitespace
  let signAndRest : Bool × List Char :=
    match cs with
    | '-' :: rest => (true, rest)
    | '+' :: rest => (false, rest)
    | _ => (false, cs)
  let neg := signAndRest.1
  let cs1 := signAndRest.2
  let intPart := cs1.takeWhile Char.isDigit
  let rest := cs1.dropWhile Char.isDigit
  let fracAndRest : List Char × List Char :=
    match rest with
    | '.' :: r => (r.takeWhile Char.isDigit, r.dropWhile Char.isDigit)
    | _ => ([], rest)
  let fracPart := fracAndRest.1
  let rest2 := fracAndRest.2
  if intPart = [] ∧ fracPart = [] then none
  else
    let mantissa : ℚ :=
      (digitsVal intPart : ℚ) + (digitsVal fracPart : ℚ) / 10 ^ fracPart.length
    let exp : ℤ :=
      match rest2 with
      | c :: r =>
        if c = 'e' ∨ c = 'E' then
          let esignAndRest : Bool × List Char :=
            match r with
            | '-' :: rr => (true, rr)
            | '+' :: rr => (false, rr)
            | _ => (false, r)
          let eds := esignAndRest.2.takeWhile Char.isDigit
          if eds = [] then 0
          else if esignAndRest.1 then -(digitsVal eds : ℤ) else (digitsVal eds : ℤ)
        else 0
      | [] => 0
    let m := mantissa * (10 : ℚ) ^ exp
    some (if neg then -m else m)

/-- Models JS `String.prototype.trim`: strip whitespace from both ends. -/
def jsTrim (s : String) : String :=
  String.mk (((s.data.dropWhile Char.isWhitespace).reverse.dropWhile Char.isWhitespace).reverse)

/-- Models JS `String.prototype.toLowerCase` on the ASCII range. -/
def jsToLower (s : String) : String :=
  String.mk (s.data.map Char.toLower)

/-- A JS number as returned by `parseFloat`: NaN, an infinity, or a
finite value (kept as an exact rational; rounding to the nearest double
is not modelled). -/
inductive JSNum where
  | nan
  | inf (neg : Bool)
  | fin (q : ℚ)
deriving DecidableEq

/-- Full model of JS `parseFloat` as a 64-bit float result.  After
optional whitespace and sign, the case-sensitive literal `Infinity`
parses to a signed infinity; otherwise the decimal grammar of
`parseFloat` applies, and a parsed magnitude at or above the IEEE-754
double overflow threshold `2^1024 - 2^970` (the smallest magnitude that
rounds to Infinity under round-to-nearest-even) gives a signed
infinity, e.g. the input `1e309`. -/
def parseFloatJS (s : String) : JSNum :=
  let signAndRest : Bool × List Char :=
    match s.data.dropWhile Char.isWhitespace with
    | '-' :: rest => (true, rest)
    | '+' :: rest => (false, rest)
    | cs => (false, cs)
  if signAndRest.2.take 8 = ['I', 'n', 'f', 'i', 'n', 'i', 't', 'y'] then
    .inf signAndRest.1
  else
    match parseFloat s with
    | none => .nan
    | some q =>
      if ((2 ^ 1024 - 2 ^ 970 : ℕ) : ℚ) ≤ q then .inf false
      else if q ≤ -((2 ^ 1024 - 2 ^ 970 : ℕ) : ℚ) then .inf true
      else .fin q

/-- `Ingredient` record from `src/types.ts`.  The `unit` field is kept as
the raw string stored in the document store (the enum values are the
strings `Kg`, `Gr`, `Lt`, `Un`), so corrupt unit values are expressible.
The unused optional `quantity` field is omitted. -/
structure Ingredient where
  id : String
  userId : String
  name : String
  unit : String
  pricePerUnit : ℚ
deriving DecidableEq

/-- `LocalRecipeIngredient` form row from `src/components/Recipes.tsx`:
both fields are raw strings of the form inputs. -/
structure LocalRecipeIngredient where
  ingredientId : String
  quantityUsed : String
deriving DecidableEq

/-- `RecipeIngredient` record from `src/types.ts`; the numeric fields may
be NaN when the quantity input failed to parse, hence `Option ℚ`. -/
structure RecipeIngredient where
  ingredientId : String
  quantityUsed : Option ℚ
  calculatedCost : Option ℚ
deriving DecidableEq

/-- The `recipeData` payload built and persisted by
`Recipes.handleSubmit` (`src/components/Recipes.tsx`, lines 113-120). -/
structure RecipeData where
  userId : String
  name : String
  ingredients : List RecipeIngredient
  totalYieldWeight : ℚ
  totalCost : ℚ
  costPerGram : ℚ
deriving DecidableEq

/-- `Recipe` record from `src/types.ts` as loaded by the Calculator. -/
structure Recipe where
  id : String
  userId : String
  name : String
  ingredients : List RecipeIngredient
  totalYieldWeight : ℚ
  totalCost : ℚ
  costPerGram : ℚ
deriving DecidableEq

/-- `getConversionFactor` from `src/types.ts` lines 39-47: a switch on
the unit string with a default branch returning 1. -/
def getConversionFactor (unit : String) : ℚ :=
  if unit = "Kg" then 1000
  else if unit = "Lt" then 1000
  else if unit = "Gr" then 1
  else if unit = "Un" then 1
  else 1

/-- Cost contribution of one form row, exactly the loop body of
`calculateTotalCost` (`src/components/Recipes.tsx` lines 77-84): the row
contributes `(pricePerUnit / factor) * qty` when its ingredient id
resolves and its quantity parses, and 0 otherwise. -/
def usageCost (avail : List Ingredient) (item : LocalRecipeIngredient) : ℚ :=
  match avail.find? (fun i => i.id == item.ingredientId), parseFloat item.quantityUsed with
  | some ing, some qty => ing.pricePerUnit / getConversionFactor ing.unit * qty
  | _, _ => 0

/-- `calculateTotalCost` from `src/components/Recipes.tsx` lines 75-86:
fold the contributions over the form rows starting from 0. -/
def calculateTotalCost (avail : List Ingredient) (ingredientsList : List LocalRecipeIngredient) : ℚ :=
  ingredientsList.foldl (fun total item => total + usageCost avail item) 0

/-- The `finalIngredients` map of `Recipes.handleSubmit`
(`src/components/Recipes.tsx` lines 102-111).  The source applies a
non-null assertion to `availableIngredients.find(...)`; when the
ingredient does not resolve, `ing.unit` is a property access on
`undefined` and the map throws a TypeError, modelled by `none`.  A
quantity that fails to parse is NaN and makes `calculatedCost` NaN. -/
def finalIngredients? (avail : List Ingredient) :
    List LocalRecipeIngredient → Option (List RecipeIngredient)
  | [] => some []
  | item :: restRows =>
    match avail.find? (fun i => i.id == item.ingredientId) with
    | none => none
    | some ing =>
      let qty := parseFloat item.quantityUsed
      let factor := getConversionFactor ing.unit
      let row : RecipeIngredient :=
        ⟨item.ingredientId, qty, qty.map fun q => ing.pricePerUnit / factor * q⟩
      match finalIngredients? avail restRows with
      | none => none
      | some rows => some (row :: rows)

/-- Outcome of `Recipes.handleSubmit`: the early validation return, a
thrown TypeError from the snapshot map, or a persisted payload.  A
yield that parses to +Infinity passes the `isNaN || <= 0` validation,
and the persisted record then has `totalYieldWeight = Infinity` and
`costPerGram = totalCost / Infinity = 0`; since `RecipeData` holds the
finite-rational fragment, that outcome is represented by the dedicated
`savedInfiniteYield` constructor carrying the snapshot rows and the
(finite) `totalCost`. -/
inductive SubmitResult where
  | validationFailure
  | thrown
  | saved (data : RecipeData)
  | savedInfiniteYield (rows : List RecipeIngredient) (totalCost : ℚ)
deriving DecidableEq

/-- `Recipes.handleSubmit` (`src/components/Recipes.tsx` lines 88-140),
up to the point where the payload is handed to the document store.  The
source guard is `!recipeName || length === 0 || isNaN(yieldWeight) ||
yieldWeight <= 0`: a NaN yield is always rejected; `Infinity <= 0` is
false and `-Infinity <= 0` is true, so an infinite yield is rejected
exactly when it is negative (there is no finiteness check); a finite
yield is rejected when non-positive.  Past validation, `totalCost` and
`costPerGram` are computed and the snapshot rows are built (throwing on
an unresolved ingredient reference). -/
def handleSubmit (userId : String) (avail : List Ingredient) (recipeName : String)
    (ingredientsList : List LocalRecipeIngredient) (totalYield : String) : SubmitResult :=
  match parseFloatJS totalYield with
  | .nan => .validationFailure
  | .inf neg =>
    if recipeName = "" ∨ ingredientsList = [] ∨ neg = true then .validationFailure
    else
      match finalIngredients? avail ingredientsList with
      | none => .thrown
      | some rows => .savedInfiniteYield rows (calculateTotalCost avail ingredientsList)
  | .fin yieldWeight =>
    if recipeName = "" ∨ ingredientsList = [] ∨ yieldWeight ≤ 0 then .validationFailure
    else
      let totalCost := calculateTotalCost avail ingredientsList
      let costPerGram := totalCost / yieldWeight
      match finalIngredients? avail ingredientsList with
      | none => .thrown
      | some rows =>
        .saved ⟨userId, recipeName, rows, yieldWeight, totalCost, costPerGram⟩

/-- JS summation of possibly-NaN numbers starting from 0: one NaN term
makes the whole sum NaN. -/
def jsSum (l : List (Option ℚ)) : Option ℚ :=
  l.foldl
    (fun acc x =>
      match acc, x with
      | some a, some b => some (a + b)
      | _, _ => none)
    (some 0)

namespace Calculator

/-- Line 203 of the concatenated `src/App.tsx` (Calculator component):
`const weight = parseFloat(sellWeight) || 0` — a quantity that fails to
parse (NaN, which is falsy) is replaced by 0, and a parsed 0 stays 0. -/
def weight (sellWeight : String) : ℚ :=
  (parseFloat sellWeight).getD 0

/-- Line 204: `selectedRecipe ? selectedRecipe.costPerGram : 0` where
`selectedRecipe = recipes.find(r => r.id === selectedRecipeId)`. -/
def costPerGram (recipes : List Recipe) (selectedRecipeId : String) : ℚ :=
  match recipes.find? (fun r => r.id == selectedRecipeId) with
  | some r => r.costPerGram
  | none => 0

/-- Line 206: `const realCost = costPerGram * weight`. -/
def realCost (recipes : List Recipe) (selectedRecipeId sellWeight : String) : ℚ :=
  costPerGram recipes selectedRecipeId * weight sellWeight

/-- Line 207: `const suggestedPrice = realCost * 3`. -/
def suggestedPrice (recipes : List Recipe) (selectedRecipeId sellWeight : String) : ℚ :=
  realCost recipes selectedRecipeId sellWeight * 3

/-- Line 208: `const profit = suggestedPrice - realCost`. -/
def profit (recipes : List Recipe) (selectedRecipeId sellWeight : String) : ℚ :=
  suggestedPrice recipes selectedRecipeId sellWeight - realCost recipes selectedRecipeId sellWeight

end Calculator

/-- The `ingredientData` payload persisted by `Ingredients.handleSubmit`
(concatenated `src/App.tsx` lines 428-433); `pricePerUnit` is the raw
`parseFloat` of the price input, hence possibly NaN. -/
structure IngredientData where
  name : String
  unit : String
  pricePerUnit : Option ℚ
  userId : String
deriving DecidableEq

/-- Outcome of `Ingredients.handleSubmit`: an early return on empty
trimmed name or empty price, the duplicate-name error, or a persisted
payload. -/
inductive IngSubmitResult where
  | rejected
  | duplicateError
  | saved (data : IngredientData)
deriving DecidableEq

namespace Ingredients

/-- `Ingredients.handleSubmit` (concatenated `src/App.tsx` lines
410-450), up to the document-store call: trim the name, reject when the
trimmed name or the price string is empty, reject a case-insensitive
duplicate name (excluding the row being edited), otherwise persist. -/
def handleSubmit (userId : String) (ingredients : List Ingredient)
    (editingId : Option String) (name unit price : String) : IngSubmitResult :=
  let trimmedName := jsTrim name
  if trimmedName = "" ∨ price = "" then .rejected
  else if ingredients.any fun ing =>
      jsToLower ing.name == jsToLower trimmedName &&
      match editingId with
      | none => true
      | some e => ing.id != e
    then .duplicateError
  else .saved ⟨trimmedName, unit, parseFloat price, userId⟩

end Ingredients

/-! Helper lemmas about the embedded operations. -/

theorem foldl_add_usageCost (avail : List Ingredient) (l : List LocalRecipeIngredient) (a : ℚ) :
    l.foldl (fun total item => total + usageCost avail item) a
      = a + (l.map (usageCost avail)).sum := by
  induction l generalizing a with
  | nil => simp
  | cons x xs ih => simp [List.foldl_cons, ih, add_assoc]

theorem calculateTotalCost_eq_sum (avail : List Ingredient) (l : List LocalRecipeIngredient) :
    calculateTotalCost avail l = (l.map (usageCost avail)).sum := by
  simpa using foldl_add_usageCost avail l 0

theorem usageCost_eq_zero (avail : List Ingredient) (item : LocalRecipeIngredient)
    (h : (avail.find? fun i => i.id == item.ingredientId) = none
        ∨ parseFloat item.quantityUsed = none) :
    usageCost avail item = 0 := by
  unfold usageCost
  split
  · rcases h with h | h <;> simp_all
  · rfl

theorem map_sum_filter_of_zero {α : Type} (f : α → ℚ) (p : α → Bool) :
    ∀ l : List α, (∀ item ∈ l, p item = false → f item = 0) →
      ((l.filter p).map f).sum = (l.map f).sum := by
  intro l
  induction l with
  | nil => simp
  | cons x xs ih =>
    intro h
    rcases hp : p x with _ | _
    · have hx : f x = 0 := h x (List.mem_cons_self x xs) hp
      simp [List.filter_cons, hp, hx, ih fun item hm => h item (List.mem_cons_of_mem x hm)]
    · simp [List.filter_cons, hp, ih fun item hm => h item (List.mem_cons_of_mem x hm)]

theorem finalIngredients?_length (avail : List Ingredient) :
    ∀ (l : List LocalRecipeIngredient) (rows : List RecipeIngredient),
      finalIngredients? avail l = some rows → rows.length = l.length := by
  intro l
  induction l with
  | nil =>
    intro rows h
    simp only [finalIngredients?] at h
    cases h
    rfl
  | cons x xs ih =>
    intro rows h
    simp only [finalIngredients?] at h
    rcases hf : avail.find? fun i => i.id == x.ingredientId with _ | ing <;> rw [hf] at h
    · cases h
    · rcases hr : finalIngredients? avail xs with _ | rest <;> rw [hr] at h
      · cases h
      · cases h
        simpa using ih rest hr

theorem finalIngredients?_none_of_unresolved (avail : List Ingredient) :
    ∀ l : List LocalRecipeIngredient,
      (∃ item ∈ l, (avail.find? fun i => i.id == item.ingredientId) = none) →
      finalIngredients? avail l = none := by
  intro l
  induction l with
  | nil => rintro ⟨item, hm, _⟩; cases hm
  | cons x xs ih =>
    rintro ⟨item, hm, hnone⟩
    simp only [finalIngredients?]
    rcases List.mem_cons.1 hm with rfl | hm'
    · simp [hnone]
    · rcases hf : avail.find? fun i => i.id == x.ingredientId with _ | ing
      · simp [hf]
      · simp [hf, ih ⟨item, hm', hnone⟩]

theorem finalIngredients?_costs (avail : List Ingredient) :
    ∀ (l : List LocalRecipeIngredient) (rows : List RecipeIngredient),
      finalIngredients? avail l = some rows →
      (∀ item ∈ l, (parseFloat item.quantityUsed).isSome) →
      rows.map RecipeIngredient.calculatedCost
        = l.map fun item => some (usageCost avail item) := by
  intro l
  induction l with
  | nil =>
    intro rows h _
    simp only [finalIngredients?] at h
    cases h
    rfl
  | cons x xs ih =>
    intro rows h hq
    simp only [finalIngredients?] at h
    rcases hf : avail.find? fun i => i.id == x.ingredientId with _ | ing <;> rw [hf] at h
    · cases h
    · rcases hr : finalIngredients? avail xs with _ | rest <;> rw [hr] at h
      · cases h
      · cases h
        rcases hps : parseFloat x.quantityUsed with _ | q
        · have := hq x (List.mem_cons_self x xs)
          rw [hps] at this
          cases this
        · rw [List.map_cons, List.map_cons,
            ih rest hr fun item hm => hq item (List.mem_cons_of_mem x hm)]
          simp [hps, usageCost, hf]

theorem jsSum_of_all_some {α : Type} (g : α → ℚ) :
    ∀ (rows : List α) (a : ℚ),
      (rows.map fun r => some (g r)).foldl
          (fun acc x =>
            match acc, x with
            | some v, some b => some (v + b)
            | _, _ => none)
          (some a)
        = some (a + (rows.map g).sum) := by
  intro rows
  induction rows with
  | nil => intro a; simp
  | cons r rs ih => intro a; simp [ih, add_assoc]

theorem parseFloatJS_fin {s : String} {q : ℚ} (h : parseFloatJS s = .fin q) :
    parseFloat s = some q := by
  simp only [parseFloatJS] at h
  split at h
  · cases h
  · rcases hp : parseFloat s with _ | q' <;> simp only [hp] at h
    · cases h
    · split at h
      · cases h
      · split at h
        · cases h
        · cases h
          rfl

theorem handleSubmit_nan {u : String} {avail : List Ingredient} {name : String}
    {list : List LocalRecipeIngredient} {ty : String}
    (hp : parseFloatJS ty = .nan) :
    handleSubmit u avail name list ty = .validationFailure := by
  unfold handleSubmit
  rw [hp]

theorem handleSubmit_inf {u : String} {avail : List Ingredient} {name : String}
    {list : List LocalRecipeIngredient} {ty : String} {b : Bool}
    (hp : parseFloatJS ty = .inf b) :
    handleSubmit u avail name list ty =
      if name = "" ∨ list = [] ∨ b = true then .validationFailure
      else
        match finalIngredients? avail list with
        | none => .thrown
        | some rows => .savedInfiniteYield rows (calculateTotalCost avail list) := by
  unfold handleSubmit
  rw [hp]

theorem handleSubmit_fin {u : String} {avail : List Ingredient} {name : String}
    {list : List LocalRecipeIngredient} {ty : String} {y : ℚ}
    (hp : parseFloatJS ty = .fin y) :
    handleSubmit u avail name list ty =
      if name = "" ∨ list = [] ∨ y ≤ 0 then .validationFailure
      else
        match finalIngredients? avail list with
        | none => .thrown
        | some rows =>
          .saved ⟨u, name, rows, y, calculateTotalCost avail list,
            calculateTotalCost avail list / y⟩ := by
  unfold handleSubmit
  rw [hp]

theorem handleSubmit_saved {u : String} {avail : List Ingredient} {name : String}
    {list : List LocalRecipeIngredient} {ty : String} {d : RecipeData}
    (h : handleSubmit u avail name list ty = .saved d) :
    ∃ y, parseFloatJS ty = .fin y ∧
      ¬(name = "" ∨ list = [] ∨ y ≤ 0) ∧
      finalIngredients? avail list = some d.ingredients ∧
      d.userId = u ∧ d.name = name ∧ d.totalYieldWeight = y ∧
      d.totalCost = calculateTotalCost avail list ∧
      d.costPerGram = calculateTotalCost avail list / y := by
  unfold handleSubmit at h
  rcases hp : parseFloatJS ty with _ | b | y <;> simp only [hp] at h
  · cases h
  · by_cases hc : name = "" ∨ list = [] ∨ b = true
    · rw [if_pos hc] at h
      cases h
    · rw [if_neg hc] at h
      rcases hf : finalIngredients? avail list with _ | rows <;>
        simp only [hf] at h <;> cases h
  · by_cases hc : name = "" ∨ list = [] ∨ y ≤ 0
    · rw [if_pos hc] at h
      cases h
    · rw [if_neg hc] at h
      rcases hf : finalIngredients? avail list with _ | rows <;>
        simp only [hf] at h
      · cases h
      · cases h
        exact ⟨y, rfl, hc, rfl, rfl, rfl, rfl, rfl, rfl⟩

/-- C1: For every resolved ingredient with unit `u` and
price-per-purchase-unit `p`, and every numerically parsed quantity `q`,
the cost contribution of that usage equals
`(p / conversionFactor u) * q`; in particular a kilogram-priced
ingredient with pricePerUnit 10000 used at quantity 200 contributes
exactly 2000, and a unit-priced ingredient with pricePerUnit 5 used at
quantity 3 contributes exactly 15. -/
theorem usageCost_formula :
    (∀ (avail : List Ingredient) (item : LocalRecipeIngredient) (ing : Ingredient) (q : ℚ),
      (avail.find? fun i => i.id == item.ingredientId) = some ing →
      parseFloat item.quantityUsed = some q →
      usageCost avail item = ing.pricePerUnit / getConversionFactor ing.unit * q) ∧
    usageCost [⟨"a", "u", "Harina de Almendras", "Kg", 10000⟩] ⟨"a", "200"⟩ = 2000 ∧
    usageCost [⟨"b", "u", "Huevo", "Un", 5⟩] ⟨"b", "3"⟩ = 15 := by
  refine ⟨?_, by with_unfolding_all rfl, by with_unfolding_all rfl⟩
  intro avail item ing q hf hp
  unfold usageCost
  rw [hf, hp]

theorem usageCost_formula_witness :
    usageCost [⟨"a", "u", "Harina de Almendras", "Kg", 10000⟩] ⟨"a", "200"⟩ =
      (10000 : ℚ) / getConversionFactor "Kg" * 200 :=
  usageCost_formula.1 [⟨"a", "u", "Harina de Almendras", "Kg", 10000⟩] ⟨"a", "200"⟩
    ⟨"a", "u", "Harina de Almendras", "Kg", 10000⟩ 200
    (by with_unfolding_all rfl) (by with_unfolding_all rfl)

/-- C2: For every saved recipe, the costing computes `totalCost` as the
sum of the individual usage costs and `costPerGram` as `totalCost`
divided by the parsed (positive) yield weight; in particular a recipe
with two 2000-cost usages and yield weight 1000 is persisted with
totalCost 4000 and costPerGram 4. -/
theorem recipe_totals :
    (∀ (u : String) (avail : List Ingredient) (name : String)
        (list : List LocalRecipeIngredient) (ty : String) (y : ℚ) (d : RecipeData),
      parseFloat ty = some y →
      handleSubmit u avail name list ty = .saved d →
      d.totalCost = (list.map (usageCost avail)).sum ∧
      d.costPerGram = d.totalCost / y) ∧
    handleSubmit "u" [⟨"a", "u", "Harina de Almendras", "Kg", 10000⟩] "Torta"
        [⟨"a", "200"⟩, ⟨"a", "200"⟩] "1000" =
      .saved ⟨"u", "Torta",
        [⟨"a", some 200, some 2000⟩, ⟨"a", some 200, some 2000⟩], 1000, 4000, 4⟩ := by
  refine ⟨?_, by with_unfolding_all rfl⟩
  intro u avail name list ty y d hp h
  obtain ⟨y', hpj, _, _, _, _, _, htc, hcpg⟩ := handleSubmit_saved h
  have hps := parseFloatJS_fin hpj
  rw [hp] at hps
  cases hps
  rw [htc, hcpg, calculateTotalCost_eq_sum]
  exact ⟨rfl, rfl⟩

theorem recipe_totals_witness :
    (RecipeData.mk "u" "Torta"
        [⟨"a", some 200, some 2000⟩, ⟨"a", some 200, some 2000⟩] 1000 4000 4).totalCost
      = (([⟨"a", "200"⟩, ⟨"a", "200"⟩] : List LocalRecipeIngredient).map
          (usageCost [⟨"a", "u", "Harina de Almendras", "Kg", 10000⟩])).sum ∧
    (RecipeData.mk "u" "Torta"
        [⟨"a", some 200, some 2000⟩, ⟨"a", some 200, some 2000⟩] 1000 4000 4).costPerGram
      = (RecipeData.mk "u" "Torta"
          [⟨"a", some 200, some 2000⟩, ⟨"a", some 200, some 2000⟩] 1000 4000 4).totalCost / 1000 :=
  recipe_totals.1 "u" [⟨"a", "u", "Harina de Almendras", "Kg", 10000⟩] "Torta"
    [⟨"a", "200"⟩, ⟨"a", "200"⟩] "1000" 1000
    ⟨"u", "Torta", [⟨"a", some 200, some 2000⟩, ⟨"a", some 200, some 2000⟩], 1000, 4000, 4⟩
    (by with_unfolding_all rfl) (by with_unfolding_all rfl)

/-- C4: getConversionFactor is a total function on unit strings: it
returns 1000 for Kg and Lt, 1 for Gr and Un, 1 for any other string
(rather than erroring), and its result is strictly positive for every
input. -/
theorem getConversionFactor_total :
    getConversionFactor "Kg" = 1000 ∧ getConversionFactor "Lt" = 1000 ∧
    getConversionFactor "Gr" = 1 ∧ getConversionFactor "Un" = 1 ∧
    (∀ u : String, u ≠ "Kg" → u ≠ "Lt" → u ≠ "Gr" → u ≠ "Un" → getConversionFactor u = 1) ∧
    (∀ u : String, 0 < getConversionFactor u) := by
  refine ⟨by with_unfolding_all rfl, by with_unfolding_all rfl,
    by with_unfolding_all rfl, by with_unfolding_all rfl, ?_, ?_⟩
  · intro u h1 h2 h3 h4
    simp [getConversionFactor, h1, h2, h3, h4]
  · intro u
    unfold getConversionFactor
    split_ifs <;> norm_num

theorem getConversionFactor_total_witness :
    getConversionFactor "Libra" = 1 ∧ 0 < getConversionFactor "Libra" :=
  ⟨getConversionFactor_total.2.2.2.2.1 "Libra"
      (by decide) (by decide) (by decide) (by decide),
    getConversionFactor_total.2.2.2.2.2 "Libra"⟩

/-- C5: The total-cost computation never throws and excludes every usage
whose ingredient reference does not resolve or whose quantity fails
numeric parsing (such a usage contributes 0): the total equals the sum
over only the resolvable, numerically parsed usages.  (The embedded
`calculateTotalCost` is a total function, mirroring that the source
guards both failure modes before touching the ingredient.) -/
theorem calculateTotalCost_skips_invalid :
    (∀ (avail : List Ingredient) (list : List LocalRecipeIngredient),
      calculateTotalCost avail list =
        ((list.filter fun item =>
            (avail.find? fun i => i.id == item.ingredientId).isSome &&
              (parseFloat item.quantityUsed).isSome).map (usageCost avail)).sum) ∧
    (∀ (avail : List Ingredient) (item : LocalRecipeIngredient),
      (avail.find? fun i => i.id == item.ingredientId) = none ∨
        parseFloat item.quantityUsed = none →
      usageCost avail item = 0) := by
  constructor
  · intro avail list
    rw [calculateTotalCost_eq_sum,
      map_sum_filter_of_zero (usageCost avail) _ list]
    intro item _ hfalse
    rcases hf : avail.find? fun i => i.id == item.ingredientId with _ | ing
    · exact usageCost_eq_zero avail item (Or.inl hf)
    · rcases hq : parseFloat item.quantityUsed with _ | q
      · exact usageCost_eq_zero avail item (Or.inr hq)
      · rw [hf, hq] at hfalse
        simp at hfalse
  · intro avail item h
    exact usageCost_eq_zero avail item h

theorem calculateTotalCost_skips_invalid_witness :
    usageCost [] ⟨"ghost", "1"⟩ = 0 :=
  calculateTotalCost_skips_invalid.2 [] ⟨"ghost", "1"⟩ (Or.inl rfl)

/-- C3: the sale pricing computes realCost as costPerGram times the
parsed quantity sold for a resolved recipe, suggestedPrice as exactly
3 times realCost (fixed markup constant 3), and profit as
suggestedPrice minus realCost; in particular quantity 100 at
costPerGram 4 gives realCost 400, suggestedPrice 1200, profit 800. -/
theorem priceRecipe_markup :
    (∀ (recipes : List Recipe) (sid sw : String) (r : Recipe) (w : ℚ),
      (recipes.find? fun rec => rec.id == sid) = some r →
      parseFloat sw = some w →
      Calculator.realCost recipes sid sw = r.costPerGram * w) ∧
    (∀ (recipes : List Recipe) (sid sw : String),
      Calculator.suggestedPrice recipes sid sw = 3 * Calculator.realCost recipes sid sw ∧
      Calculator.profit recipes sid sw =
        Calculator.suggestedPrice recipes sid sw - Calculator.realCost recipes sid sw) ∧
    Calculator.realCost [⟨"r1", "u", "Torta", [], 1000, 4000, 4⟩] "r1" "100" = 400 ∧
    Calculator.suggestedPrice [⟨"r1", "u", "Torta", [], 1000, 4000, 4⟩] "r1" "100" = 1200 ∧
    Calculator.profit [⟨"r1", "u", "Torta", [], 1000, 4000, 4⟩] "r1" "100" = 800 := by
  refine ⟨?_, ?_, by with_unfolding_all rfl, by with_unfolding_all rfl,
    by with_unfolding_all rfl⟩
  · intro recipes sid sw r w hf hp
    unfold Calculator.realCost Calculator.costPerGram Calculator.weight
    rw [hf, hp]
    rfl
  · intro recipes sid sw
    unfold Calculator.profit Calculator.suggestedPrice
    exact ⟨mul_comm _ 3, rfl⟩

theorem priceRecipe_markup_witness :
    Calculator.realCost [⟨"r1", "u", "Torta", [], 1000, 4000, 4⟩] "r1" "100" =
      (Recipe.mk "r1" "u" "Torta" [] 1000 4000 4).costPerGram * 100 :=
  priceRecipe_markup.1 [⟨"r1", "u", "Torta", [], 1000, 4000, 4⟩] "r1" "100"
    ⟨"r1", "u", "Torta", [], 1000, 4000, 4⟩ 100
    (by with_unfolding_all rfl) (by with_unfolding_all rfl)

/-- C6 counterexample: a save whose usage list references an ingredient
id that resolves to no available ingredient does NOT contribute 0 and
persist a row — the snapshot map dereferences the non-null-asserted
`find` result and throws a TypeError, so nothing is persisted. -/
theorem save_unresolved_cex :
    handleSubmit "u" [] "Torta" [⟨"ghost", "1"⟩] "100" = SubmitResult.thrown := by
  with_unfolding_all rfl

/-- C6 amended: for every recipe save passing validation whose usage
list contains an unresolvable ingredient reference, the save-time
snapshot computation throws (no record is persisted); whenever a record
is persisted, its ingredient list still includes one row for every
listed usage. -/
theorem save_unresolved_amended :
    (∀ (u : String) (avail : List Ingredient) (name : String)
        (list : List LocalRecipeIngredient) (ty : String),
      (∃ item ∈ list, (avail.find? fun i => i.id == item.ingredientId) = none) →
      handleSubmit u avail name list ty = .validationFailure ∨
        handleSubmit u avail name list ty = .thrown) ∧
    (∀ (u : String) (avail : List Ingredient) (name : String)
        (list : List LocalRecipeIngredient) (ty : String) (d : RecipeData),
      handleSubmit u avail name list ty = .saved d →
      d.ingredients.length = list.length) := by
  constructor
  · intro u avail name list ty hex
    rcases hp : parseFloatJS ty with _ | b | y
    · exact Or.inl (handleSubmit_nan hp)
    · rw [handleSubmit_inf hp]
      by_cases hc : name = "" ∨ list = [] ∨ b = true
      · rw [if_pos hc]
        exact Or.inl rfl
      · rw [if_neg hc, finalIngredients?_none_of_unresolved avail list hex]
        exact Or.inr rfl
    · rw [handleSubmit_fin hp]
      by_cases hc : name = "" ∨ list = [] ∨ y ≤ 0
      · rw [if_pos hc]
        exact Or.inl rfl
      · rw [if_neg hc, finalIngredients?_none_of_unresolved avail list hex]
        exact Or.inr rfl
  · intro u avail name list ty d h
    obtain ⟨y, _, _, hf, _⟩ := handleSubmit_saved h
    exact finalIngredients?_length avail list d.ingredients hf

theorem save_unresolved_amended_witness :
    (handleSubmit "u" [] "Torta" [⟨"ghost", "1"⟩] "100" = SubmitResult.validationFailure ∨
      handleSubmit "u" [] "Torta" [⟨"ghost", "1"⟩] "100" = SubmitResult.thrown) ∧
    (RecipeData.mk "u" "Receta" [⟨"a", none, none⟩] 10 0 0).ingredients.length =
      ([⟨"a", "x"⟩] : List LocalRecipeIngredient).length :=
  ⟨save_unresolved_amended.1 "u" [] "Torta" [⟨"ghost", "1"⟩] "100"
      ⟨⟨"ghost", "1"⟩, by simp, rfl⟩,
    save_unresolved_amended.2 "u" [⟨"a", "u", "Harina de Almendras", "Kg", 1000⟩] "Receta"
      [⟨"a", "x"⟩] "10" ⟨"u", "Receta", [⟨"a", none, none⟩], 10, 0, 0⟩
      (by with_unfolding_all rfl)⟩

/-- C7 counterexample: the yield input `1e309` parses to +Infinity in
JS — not a positive finite number, so the claim demands a validation
rejection — yet the source checks only `isNaN(yieldWeight) ||
yieldWeight <= 0`, both false for +Infinity, and the save proceeds
(persisting `totalYieldWeight = Infinity`, `costPerGram = 0`). -/
theorem validation_finiteness_cex :
    parseFloatJS "1e309" = JSNum.inf false ∧
    handleSubmit "u" [⟨"a", "u", "Harina de Almendras", "Kg", 10000⟩] "Torta"
        [⟨"a", "200"⟩] "1e309" =
      SubmitResult.savedInfiniteYield [⟨"a", some 200, some 2000⟩] 2000 := by
  constructor
  · with_unfolding_all rfl
  · with_unfolding_all rfl

/-- C7 amended: a recipe save is rejected with a validation failure
exactly when the recipe name is empty, or the usage list is empty, or
the yield input parses to NaN or to a non-positive value (including
-Infinity).  There is no finiteness check: a yield parsing to +Infinity
passes validation and the save proceeds. -/
theorem validation_iff_amended :
    ∀ (u : String) (avail : List Ingredient) (name : String)
      (list : List LocalRecipeIngredient) (ty : String),
      handleSubmit u avail name list ty = .validationFailure ↔
        (name = "" ∨ list = [] ∨ parseFloatJS ty = .nan ∨
          parseFloatJS ty = .inf true ∨ ∃ y, parseFloatJS ty = .fin y ∧ y ≤ 0) := by
  intro u avail name list ty
  rcases hp : parseFloatJS ty with _ | b | y
  · rw [handleSubmit_nan hp]
    simp
  · rw [handleSubmit_inf hp]
    by_cases hc : name = "" ∨ list = [] ∨ b = true
    · rw [if_pos hc]
      constructor
      · intro _
        rcases hc with h | h | h
        · exact Or.inl h
        · exact Or.inr (Or.inl h)
        · subst h
          exact Or.inr (Or.inr (Or.inr (Or.inl rfl)))
      · intro _
        rfl
    · rw [if_neg hc]
      constructor
      · intro h
        exfalso
        rcases hf : finalIngredients? avail list with _ | rows <;>
          simp [hf] at h
      · intro hr
        exfalso
        apply hc
        rcases hr with h | h | h | h | ⟨y, hy, _⟩
        · exact Or.inl h
        · exact Or.inr (Or.inl h)
        · cases h
        · cases h
          exact Or.inr (Or.inr rfl)
        · cases hy
  · rw [handleSubmit_fin hp]
    by_cases hc : name = "" ∨ list = [] ∨ y ≤ 0
    · rw [if_pos hc]
      constructor
      · intro _
        rcases hc with h | h | h
        · exact Or.inl h
        · exact Or.inr (Or.inl h)
        · exact Or.inr (Or.inr (Or.inr (Or.inr ⟨y, rfl, h⟩)))
      · intro _
        rfl
    · rw [if_neg hc]
      constructor
      · intro h
        exfalso
        rcases hf : finalIngredients? avail list with _ | rows <;>
          simp [hf] at h
      · intro hr
        exfalso
        apply hc
        rcases hr with h | h | h | h | ⟨y', hy, hle⟩
        · exact Or.inl h
        · exact Or.inr (Or.inl h)
        · cases h
        · cases h
        · cases hy
          exact Or.inr (Or.inr hle)

/-- C8 counterexample: a validated save whose single usage row has a
non-numeric quantity is persisted with totalCost 0 while the persisted
row carries calculatedCost NaN, so the sum of the persisted
calculatedCost fields (NaN) differs from totalCost. -/
theorem save_invariant_cex :
    handleSubmit "u" [⟨"a", "u", "Harina de Almendras", "Kg", 1000⟩] "Torta"
        [⟨"a", "x"⟩] "10" =
      SubmitResult.saved ⟨"u", "Torta", [⟨"a", none, none⟩], 10, 0, 0⟩ ∧
    jsSum (([⟨"a", none, none⟩] : List RecipeIngredient).map RecipeIngredient.calculatedCost)
      ≠ some ((RecipeData.mk "u" "Torta" [⟨"a", none, none⟩] 10 0 0).totalCost) := by
  refine ⟨by with_unfolding_all rfl, ?_⟩
  intro h
  simp [jsSum] at h

/-- C8 amended: every persisted recipe record satisfies
costPerGram = totalCost / totalYieldWeight; and when every usage row's
quantity parses numerically (every row's ingredient necessarily resolves
for the save to succeed), it also satisfies totalCost = sum of the
persisted calculatedCost fields.  A row with a non-numeric quantity
makes that sum NaN while totalCost excludes the row, breaking the sum
half of the invariant. -/
theorem save_invariant_amended :
    ∀ (u : String) (avail : List Ingredient) (name : String)
      (list : List LocalRecipeIngredient) (ty : String) (d : RecipeData),
      handleSubmit u avail name list ty = .saved d →
      d.costPerGram = d.totalCost / d.totalYieldWeight ∧
      ((∀ item ∈ list, (parseFloat item.quantityUsed).isSome) →
        jsSum (d.ingredients.map RecipeIngredient.calculatedCost) = some d.totalCost) := by
  intro u avail name list ty d h
  obtain ⟨y, hp, hc, hf, hu, hn, hyw, htc, hcpg⟩ := handleSubmit_saved h
  constructor
  · rw [hcpg, htc, hyw]
  · intro hq
    rw [finalIngredients?_costs avail list d.ingredients hf hq]
    have hsum := jsSum_of_all_some (usageCost avail) list 0
    rw [zero_add] at hsum
    unfold jsSum
    rw [hsum, htc, calculateTotalCost_eq_sum]

theorem save_invariant_amended_witness :
    (RecipeData.mk "u" "Torta"
        [⟨"a", some 200, some 2000⟩, ⟨"a", some 200, some 2000⟩] 1000 4000 4).costPerGram =
      (RecipeData.mk "u" "Torta"
        [⟨"a", some 200, some 2000⟩, ⟨"a", some 200, some 2000⟩] 1000 4000 4).totalCost / 1000 ∧
    jsSum (([⟨"a", some 200, some 2000⟩, ⟨"a", some 200, some 2000⟩] :
        List RecipeIngredient).map RecipeIngredient.calculatedCost) = some (4000 : ℚ) := by
  have h := save_invariant_amended "u" [⟨"a", "u", "Harina de Almendras", "Kg", 10000⟩]
    "Torta" [⟨"a", "200"⟩, ⟨"a", "200"⟩] "1000"
    ⟨"u", "Torta", [⟨"a", some 200, some 2000⟩, ⟨"a", some 200, some 2000⟩], 1000, 4000, 4⟩
    (by with_unfolding_all rfl)
  refine ⟨h.1, h.2 ?_⟩
  intro item hm
  rcases hm with _ | ⟨_, hm⟩
  · with_unfolding_all rfl
  · rcases hm with _ | ⟨_, hm⟩
    · with_unfolding_all rfl
    · cases hm

/-- C9 counterexample: the price input string "-5" passes every check
the form applies (non-empty trimmed name, non-empty price, no
duplicate), and the persisted ingredient record carries the negative
pricePerUnit -5. -/
theorem ingredient_negative_price_cex :
    Ingredients.handleSubmit "u" [] none "Sal" "Kg" "-5" =
      IngSubmitResult.saved ⟨"Sal", "Kg", some (-5), "u"⟩ ∧
    (-5 : ℚ) < 0 := by
  refine ⟨by with_unfolding_all rfl, by norm_num⟩

/-- C9 amended: every ingredient record accepted and persisted by the
add/edit operation has pricePerUnit equal to the numeric parse of the
supplied price string; the form's checks do not constrain its sign, so
a negative price input is persisted as a negative pricePerUnit. -/
theorem ingredient_price_parse_amended :
    ∀ (u : String) (ings : List Ingredient) (eid : Option String)
      (name unit price : String) (d : IngredientData),
      Ingredients.handleSubmit u ings eid name unit price = .saved d →
      d.pricePerUnit = parseFloat price := by
  intro u ings eid name unit price d h
  simp only [Ingredients.handleSubmit] at h
  split at h
  · cases h
  · split at h
    · cases h
    · cases h
      rfl

theorem ingredient_price_parse_amended_witness :
    (IngredientData.mk "Sal" "Kg" (some (-5)) "u").pricePerUnit = parseFloat "-5" :=
  ingredient_price_parse_amended "u" [] none "Sal" "Kg" "-5"
    ⟨"Sal", "Kg", some (-5), "u"⟩ (by with_unfolding_all rfl)

/-- C10: the ingredient add/edit operation trims the user-supplied name
before both the duplicate check and persistence: the stored name equals
the trimmed input, an input that is empty after trimming is rejected
with no write, and the duplicate check compares the trimmed, lowercased
name. -/
theorem ingredient_name_trim :
    (∀ (u : String) (ings : List Ingredient) (eid : Option String)
        (name unit price : String) (d : IngredientData),
      Ingredients.handleSubmit u ings eid name unit price = .saved d →
      d.name = jsTrim name) ∧
    (∀ (u : String) (ings : List Ingredient) (eid : Option String)
        (name unit price : String),
      jsTrim name = "" →
      Ingredients.handleSubmit u ings eid name unit price = .rejected) ∧
    (∀ (u : String) (ings : List Ingredient) (eid : Option String)
        (name unit price : String),
      Ingredients.handleSubmit u ings eid name unit price = .duplicateError ↔
        (¬(jsTrim name = "" ∨ price = "") ∧
          (ings.any fun ing =>
            jsToLower ing.name == jsToLower (jsTrim name) &&
              match eid with
              | none => true
              | some e => ing.id != e) = true)) := by
  refine ⟨?_, ?_, ?_⟩
  · intro u ings eid name unit price d h
    simp only [Ingredients.handleSubmit] at h
    split at h
    · cases h
    · split at h
      · cases h
      · cases h
        rfl
  · intro u ings eid name unit price h0
    simp only [Ingredients.handleSubmit]
    rw [if_pos (Or.inl h0)]
  · intro u ings eid name unit price
    simp only [Ingredients.handleSubmit]
    by_cases h1 : jsTrim name = "" ∨ price = ""
    · rw [if_pos h1]
      constructor
      · intro h
        cases h
      · rintro ⟨hn, _⟩
        exact absurd h1 hn
    · rw [if_neg h1]
      by_cases h2 : (ings.any fun ing =>
          jsToLower ing.name == jsToLower (jsTrim name) &&
            match eid with
            | none => true
            | some e => ing.id != e) = true
      · rw [if_pos h2]
        exact ⟨fun _ => ⟨h1, h2⟩, fun _ => rfl⟩
      · rw [if_neg h2]
        constructor
        · intro h
          cases h
        · rintro ⟨_, hany⟩
          exact absurd hany h2

theorem ingredient_name_trim_witness :
    (IngredientData.mk "Sal" "Kg" (some 10) "u").name = jsTrim " Sal " ∧
    Ingredients.handleSubmit "u" [] none "   " "Kg" "10" = IngSubmitResult.rejected :=
  ⟨ingredient_name_trim.1 "u" [] none " Sal " "Kg" "10"
      ⟨"Sal", "Kg", some 10, "u"⟩ (by with_unfolding_all rfl),
    ingredient_name_trim.2.1 "u" [] none "   " "Kg" "10" (by with_unfolding_all rfl)⟩

end Keto
